import Mathlib

/-!
Verification of the e-commerce discount pipeline (TypeScript repository
`ecom-lld`) against its natural-language specification.

Money is modelled exactly: the repository's `Decimal` (decimal.js, set to
precision 10, ROUND_HALF_UP) is an arbitrary-precision exact-decimal type,
which we embed as `Rat`.  Every arithmetic identity proved here therefore
holds "up to rounding at the declared precision" in the implementation,
with zero rounding slack in the model.

Fallible strategy calls (`validate` / `calculateDiscount` may throw, the
applier catches) are embedded as `Except String _`-valued functions.
-/

/-- Brand tiers, from `src/models/interface.ts` (`enum BrandTier`). -/
inductive BrandTier where
  | premium
  | regular
  | budget
deriving DecidableEq, Repr

/-- A product, from `src/models/interface.ts` (`interface Product`).
`currentPrice` is the live price, mutated by the applier's proportional
redistribution; `basePrice` is the original list price. -/
structure Product where
  id : String
  brand : String
  brandTier : BrandTier
  category : String
  basePrice : Rat
  currentPrice : Rat
deriving DecidableEq, Repr

/-- A cart line item, from `src/models/interface.ts` (`interface CartItem`).
`quantity` is a TS `number`; we embed it as `Rat` and add the validity
hypothesis `1 ≤ quantity` where the spec requires it. -/
structure CartItem where
  product : Product
  quantity : Rat
  size : String
deriving DecidableEq, Repr

/-- Customer profile, from `src/models/interface.ts`. -/
structure CustomerProfile where
  id : String
  name : String
  tier : String
  email : String
deriving DecidableEq, Repr

/-- Payment information, from `src/models/interface.ts`. -/
structure PaymentInfo where
  method : String
  bankName : Option String
  cardType : Option String
deriving DecidableEq, Repr

/-- The four concrete strategy classes of the repository
(`BrandDiscountStrategy`, `CategoryDiscountStrategy`,
`VoucherDiscountStrategy`, `BankCardDiscountStrategy`); used to model the
TS `instanceof` class tag. -/
inductive StrategyKind where
  | brand
  | category
  | voucher
  | bank
deriving DecidableEq, Repr

/-- The `DiscountStrategy` interface of `src/models/interface.ts`.
`validate` and `calculateDiscount` may throw in TS; the embedding returns
`Except`.  `getDiscountName` and `getPriority` are pure constant methods on
every class of the repository, so they are plain fields. -/
structure DiscountStrategy where
  kind : StrategyKind
  validate : List CartItem → CustomerProfile → Option PaymentInfo → Except String Bool
  calculateDiscount : List CartItem → CustomerProfile → Option PaymentInfo → Except String Rat
  getDiscountName : String
  getPriority : Int

/-- The fixed priority returned by each strategy class's `getPriority`:
`BrandDiscountStrategy.getPriority` returns 1
(`src/discount-strategies/BrandDiscountStrategy.ts` line 82),
`CategoryDiscountStrategy.getPriority` returns 1 (line 110),
`VoucherDiscountStrategy.getPriority` returns 2 (line 118),
`BankCardDiscountStrategy.getPriority` returns 3 (line 102). -/
def priorityOfKind : StrategyKind → Int
  | .brand => 1
  | .category => 1
  | .voucher => 2
  | .bank => 3

/-- JS `Map.set` on an association list: if the key is present its value is
replaced in place (keeping the original insertion position), otherwise the
pair is appended.  Models the `appliedDiscounts` map of the applier. -/
def mapSet (m : List (String × Rat)) (k : String) (v : Rat) : List (String × Rat) :=
  if m.any (fun p => p.1 = k) then
    m.map (fun p => if p.1 = k then (k, v) else p)
  else
    m ++ [(k, v)]

/-- Sum of the values of the `appliedDiscounts` map
(JS `sum(map.values())`). -/
def sumValues (m : List (String × Rat)) : Rat :=
  m.foldl (fun acc p => acc + p.2) 0

/-- Embedding of `DiscountApplier.calculateOriginalPrice`
(`src/discount-applier/DiscountApplier.ts` lines 104-108): the sum of
`currentPrice × quantity` over the cart. -/
def calculateOriginalPrice (cartItems : List CartItem) : Rat :=
  cartItems.foldl (fun acc item => acc + item.product.currentPrice * item.quantity) 0

/-- One item's price update in the proportional redistribution
(`DiscountApplier.ts` lines 79-84): reduce `currentPrice` by
`(currentPrice × quantity × ratio) / quantity`, floored at 0. -/
def updateItemPrice (ratio : Rat) (item : CartItem) : CartItem :=
  let itemPrice := item.product.currentPrice * item.quantity
  let itemDiscount := itemPrice * ratio
  let newPrice := item.product.currentPrice - itemDiscount / item.quantity
  { item with product :=
      { item.product with currentPrice := if newPrice > 0 then newPrice else 0 } }

/-- The proportional redistribution step of `DiscountApplier.applyDiscounts`
(`DiscountApplier.ts` lines 75-85): when the cart total before the step is
positive, scale every item's price down by `discount / total`. -/
def redistribute (cartItems : List CartItem) (discount : Rat) : List CartItem :=
  let totalCurrentPrice := calculateOriginalPrice cartItems
  if totalCurrentPrice > 0 then
    cartItems.map (updateItemPrice (discount / totalCurrentPrice))
  else
    cartItems

/-- The result record of `DiscountApplier.applyDiscounts`
(`DiscountApplier.ts` lines 16-20), together with the final (mutated) cart,
which in TS is communicated through the shared `cartItems` array. -/
structure ApplyResult where
  cartItems : List CartItem
  finalPrice : Rat
  appliedDiscounts : List (String × Rat)
  messages : List String

/-- The preliminary scan of `DiscountApplier.applyDiscounts`
(`DiscountApplier.ts` lines 26-36): iterate strategies, catching validator
errors, breaking out (leaving `shouldApplyDiscounts = true`) on the first
successful validation; the accumulator starts as the initial value of
`shouldApplyDiscounts`. -/
def prescanLoop (customer : CustomerProfile) (pay : Option PaymentInfo)
    (cart : List CartItem) : List DiscountStrategy → Bool → Bool
  | [], b => b
  | s :: rest, b =>
    match s.validate cart customer pay with
    | .ok true => true
    | _ => prescanLoop customer pay cart rest b

/-- The main strategy loop of `DiscountApplier.applyDiscounts`
(`DiscountApplier.ts` lines 47-95).  For each strategy, inside a
`try`/`catch` that skips the strategy on any thrown error: validate
against the current cart, compute the discount, and when it is positive
either cap (set `finalPrice` to 0, record the remaining balance, push a
"(capped)" message and `break`) or subtract it, record it, push a message
and redistribute the discount proportionally over the cart. -/
def applyLoop (customer : CustomerProfile) (pay : Option PaymentInfo) :
    List DiscountStrategy → List CartItem → Rat → List (String × Rat) → List String →
      ApplyResult
  | [], cart, fp, ad, msgs => ⟨cart, fp, ad, msgs⟩
  | s :: rest, cart, fp, ad, msgs =>
    match s.validate cart customer pay with
    | .error _ => applyLoop customer pay rest cart fp ad msgs
    | .ok false => applyLoop customer pay rest cart fp ad msgs
    | .ok true =>
      match s.calculateDiscount cart customer pay with
      | .error _ => applyLoop customer pay rest cart fp ad msgs
      | .ok discount =>
        if discount > 0 then
          if fp - discount < 0 then
            ⟨cart, 0, mapSet ad s.getDiscountName fp,
              msgs ++ ["Applied " ++ s.getDiscountName ++ " (capped)"]⟩
          else
            applyLoop customer pay rest (redistribute cart discount) (fp - discount)
              (mapSet ad s.getDiscountName discount)
              (msgs ++ ["Applied " ++ s.getDiscountName])
        else
          applyLoop customer pay rest cart fp ad msgs

/-- Embedding of `DiscountApplier.applyDiscounts` (`DiscountApplier.ts` lines 11-102):
snapshot the original price, run the preliminary scan (initialising
`shouldApplyDiscounts` to `true`), return early if it is `false`,
otherwise run the main loop.  The strategies argument is the
already-priority-sorted list held by the applier. -/
def applyDiscounts (strategies : List DiscountStrategy) (cartItems : List CartItem)
    (customer : CustomerProfile) (pay : Option PaymentInfo) : ApplyResult :=
  let finalPrice := calculateOriginalPrice cartItems
  let shouldApplyDiscounts := prescanLoop customer pay cartItems strategies true
  if shouldApplyDiscounts = false then
    ⟨cartItems, finalPrice, [], []⟩
  else
    applyLoop customer pay strategies cartItems finalPrice [] []

/-- The same function with the preliminary scan (`DiscountApplier.ts`
lines 24-45) removed, written from the claim's words; compared with
`applyDiscounts` for the observational-equivalence claim. -/
def applyDiscountsNoPrescan (strategies : List DiscountStrategy)
    (cartItems : List CartItem) (customer : CustomerProfile)
    (pay : Option PaymentInfo) : ApplyResult :=
  applyLoop customer pay strategies cartItems (calculateOriginalPrice cartItems) [] []

/-- Priority comparison used by the applier's constructor sort
(`DiscountApplier.ts` line 8, comparator `a.getPriority() - b.getPriority()`). -/
def strategyLE (a b : DiscountStrategy) : Prop :=
  a.getPriority ≤ b.getPriority

instance : DecidableRel strategyLE := fun a b =>
  inferInstanceAs (Decidable (a.getPriority ≤ b.getPriority))

instance : IsTotal DiscountStrategy strategyLE :=
  ⟨fun a b => Int.le_total a.getPriority b.getPriority⟩

instance : IsTrans DiscountStrategy strategyLE :=
  ⟨fun _ _ _ hab hbc => Int.le_trans hab hbc⟩

/-- The applier constructor's sort (`DiscountApplier.ts` line 8):
`[...strategies].sort((a, b) => a.getPriority() - b.getPriority())`.
ECMAScript `Array.prototype.sort` with a consistent comparator is a stable
sort by the comparator's order, and the stable sort of a list is unique;
`List.insertionSort` is stable and sorted, so it computes the same list. -/
def sortStrategies (strategies : List DiscountStrategy) : List DiscountStrategy :=
  List.insertionSort strategyLE strategies

/-! ### Strategy classes

Embeddings of the concrete strategy classes the claims mention, each with
its default validator (the classes accept injected validators; the claims
are about the defaults).  The optional audit callback
(`onDiscountApplied`) is a pure observer in the source — it is invoked
with the already-computed amount and must not affect control flow — so it
is omitted from the embedding. -/

/-- Configuration of `CategoryDiscountStrategy`
(`src/discount-strategies/CategoryDiscountStrategy.ts` lines 6-11). -/
structure CategoryDiscountConfig where
  category : String
  discountPercentage : Rat
  minimumCartAmount : Option Rat
  eligibleBrands : Option (List String)
deriving Repr

/-- Embedding of `DefaultCategoryValidator.validate`
(`CategoryDiscountStrategy.ts` lines 17-32): sum `currentPrice × quantity`
over items whose category equals the configured category (the source
compares with `===`, i.e. exactly), then fail only when a minimum cart
amount is configured and the sum is below it.  A configured `Decimal`
minimum is always truthy in JS, even when it is 0, so presence alone
triggers the check. -/
def defaultCategoryValidate (items : List CartItem) (_customer : CustomerProfile)
    (config : CategoryDiscountConfig) : Bool :=
  let totalAmount := items.foldl
    (fun acc item =>
      if item.product.category = config.category then
        acc + item.product.currentPrice * item.quantity
      else acc) 0
  match config.minimumCartAmount with
  | some m => !(totalAmount < m)
  | none => true

/-- Embedding of `CategoryDiscountStrategy.calculateDiscount`
(`CategoryDiscountStrategy.ts` lines 59-95): 0 for an empty cart or a
failed validation; otherwise the configured percentage of the sum of
`currentPrice × quantity` over items matching the category and the
eligible-brand allow-list, or 0 when a configured minimum is not met. -/
def categoryCalculateDiscount (items : List CartItem) (customer : CustomerProfile)
    (config : CategoryDiscountConfig) : Rat :=
  if items.length = 0 || !(defaultCategoryValidate items customer config) then 0
  else
    let totalAmount := items.foldl
      (fun acc item =>
        if item.product.category = config.category
            && (match config.eligibleBrands with
                | none => true
                | some brands => brands.contains item.product.brand) then
          acc + item.product.currentPrice * item.quantity
        else acc) 0
    match config.minimumCartAmount with
    | some m => if totalAmount < m then 0 else totalAmount * config.discountPercentage / 100
    | none => totalAmount * config.discountPercentage / 100

/-- The `CategoryDiscountStrategy` class
(`CategoryDiscountStrategy.ts` lines 34-112) with its default validator:
`validate` delegates to the validator, `getDiscountName` is
`"Category Discount - <category> (<percentage>%)"`, `getPriority` is 1. -/
def mkCategoryStrategy (config : CategoryDiscountConfig) : DiscountStrategy where
  kind := .category
  validate := fun items customer _pay => .ok (defaultCategoryValidate items customer config)
  calculateDiscount := fun items customer _pay =>
    .ok (categoryCalculateDiscount items customer config)
  getDiscountName :=
    "Category Discount - " ++ config.category ++ " (" ++ toString config.discountPercentage ++ "%)"
  getPriority := 1

/-- Configuration of `BrandDiscountStrategy`
(`src/models/interface.ts` lines 79-86; the fields its default validator
and calculation read). -/
structure BrandDiscountConfig where
  brand : String
  discountPercentage : Rat
  minimumCartAmount : Option Rat
  eligibleCategories : Option (List String)
deriving Repr

/-- Embedding of `DefaultBrandValidator.validate`
(`src/discount-strategies/BrandDiscountStrategy.ts` lines 90-105): sum
`currentPrice × quantity` over items of the configured brand with PREMIUM
tier, then fail only when a configured minimum cart amount is not met. -/
def defaultBrandValidate (items : List CartItem) (_customer : CustomerProfile)
    (config : BrandDiscountConfig) : Bool :=
  let totalAmount := items.foldl
    (fun acc item =>
      if item.product.brand = config.brand && item.product.brandTier = BrandTier.premium then
        acc + item.product.currentPrice * item.quantity
      else acc) 0
  match config.minimumCartAmount with
  | some m => !(totalAmount < m)
  | none => true

/-- Embedding of `BrandDiscountStrategy.validate` (`BrandDiscountStrategy.ts` lines
66-79): requires some item of the configured brand with PREMIUM tier,
then delegates to the validator. -/
def brandValidate (items : List CartItem) (customer : CustomerProfile)
    (config : BrandDiscountConfig) : Bool :=
  if items.any (fun item =>
      item.product.brand = config.brand && item.product.brandTier = BrandTier.premium) then
    defaultBrandValidate items customer config
  else
    false

/-- Embedding of `BrandDiscountStrategy.calculateDiscount` (`BrandDiscountStrategy.ts`
lines 24-60): 0 for an empty cart or failed validation; otherwise the
configured percentage of the sum over brand-matching PREMIUM items passing
the eligible-category allow-list, or 0 when a configured minimum is not
met. -/
def brandCalculateDiscount (items : List CartItem) (customer : CustomerProfile)
    (config : BrandDiscountConfig) : Rat :=
  if items.length = 0 || !(brandValidate items customer config) then 0
  else
    let totalAmount := items.foldl
      (fun acc item =>
        if item.product.brand = config.brand
            && item.product.brandTier = BrandTier.premium
            && (match config.eligibleCategories with
                | none => true
                | some cats => cats.contains item.product.category) then
          acc + item.product.currentPrice * item.quantity
        else acc) 0
    match config.minimumCartAmount with
    | some m => if totalAmount < m then 0 else totalAmount * config.discountPercentage / 100
    | none => totalAmount * config.discountPercentage / 100

/-- The `BrandDiscountStrategy` class (`BrandDiscountStrategy.ts` lines
4-84) with its default validator; `getDiscountName` is
`"Brand Discount - <brand> (<percentage>%)"`, `getPriority` is 1. -/
def mkBrandStrategy (config : BrandDiscountConfig) : DiscountStrategy where
  kind := .brand
  validate := fun items customer _pay => .ok (brandValidate items customer config)
  calculateDiscount := fun items customer _pay =>
    .ok (brandCalculateDiscount items customer config)
  getDiscountName :=
    "Brand Discount - " ++ config.brand ++ " (" ++ toString config.discountPercentage ++ "%)"
  getPriority := 1

/-! ### DiscountService

Embedding of the factory-based service variant (the final, most complete
one: it delegates to `DiscountApplier` and obtains strategies from the
registry).  The registry contents appear as the `strategies` argument.
The result's numbers are kept exact (`Rat`) where the source converts to
a JS `number` via `toNumber()`. -/

/-- The result record of `DiscountService.calculateCartDiscounts`
(`interface DiscountedPrice` of `src/models/interface.ts`). -/
structure DiscountedPrice where
  originalPrice : Rat
  finalPrice : Rat
  appliedDiscounts : List (String × Rat)
  message : String

/-- The service's cart clone (`DiscountService.calculateCartDiscounts`,
clone step): each item is copied with a fresh product object carrying a
deep copy of `currentPrice`.  On values the copy is the identity; the
aliasing consequences are modelled separately in the store-passing
embedding below. -/
def cloneCartItems (items : List CartItem) : List CartItem :=
  items.map (fun item =>
    { item with product := { item.product with currentPrice := item.product.currentPrice } })

/-- Embedding of `DiscountService.calculateCartDiscounts` (factory-based service,
lines 40-90): reject a missing or empty cart and a missing customer with
an error; otherwise snapshot the original price, clone the cart, run the
(priority-sorting) applier over the registered strategies, and format the
result, with the degenerate `"No discounts applied"` shape when nothing
fired.  A missing (`null`/`undefined`/non-array) cart or customer is
modelled by `none`. -/
def calculateCartDiscounts (strategies : List DiscountStrategy)
    (cartItems : Option (List CartItem)) (customer : Option CustomerProfile)
    (pay : Option PaymentInfo) : Except String DiscountedPrice :=
  match cartItems with
  | none => .error "Invalid cart items"
  | some items =>
    if items.length = 0 then .error "Invalid cart items"
    else
      match customer with
      | none => .error "Invalid customer profile"
      | some cust =>
        let originalPrice := calculateOriginalPrice items
        let cloned := cloneCartItems items
        let res := applyDiscounts (sortStrategies strategies) cloned cust pay
        if res.appliedDiscounts.length = 0 then
          .ok ⟨originalPrice, originalPrice, [], "No discounts applied"⟩
        else
          .ok ⟨originalPrice, res.finalPrice, res.appliedDiscounts,
            if res.messages.length ≠ 0 then String.intercalate ", " res.messages
            else "No discounts applied"⟩

/-- JS `String.prototype.includes`, on character lists: `needle` occurs
contiguously in `hay`. -/
def containsSub (hay needle : List Char) : Bool :=
  needle.isPrefixOf hay ||
    match hay with
    | [] => false
    | _ :: rest => containsSub rest needle

/-- JS `String.prototype.toUpperCase` on a character list (ASCII). -/
def upperChars (l : List Char) : List Char :=
  l.map Char.toUpper

/-- Embedding of `DiscountService.validateDiscountCode` (factory-based service, lines
99-124): `false` for a missing or empty code; find the first *registered
strategy of any kind* whose display name contains the upper-cased code
(`strategy.getDiscountName().includes(code.toUpperCase())`); `false` when
none is found; otherwise that strategy's `validate` with no payment info,
with a thrown validation error caught and turned into `false`. -/
def validateDiscountCode (strategies : List DiscountStrategy) (code : Option String)
    (items : List CartItem) (customer : CustomerProfile) : Bool :=
  match code with
  | none => false
  | some c =>
    if c = "" then false
    else
      match strategies.find?
          (fun s => containsSub s.getDiscountName.toList (upperChars c.toList)) with
      | none => false
      | some s =>
        match s.validate items customer none with
        | .ok b => b
        | .error _ => false

/-! ### Store-passing model of product-price mutation

In TS, `item.product.currentPrice` is a mutable field of a heap object and
the applier mutates it in place; the service's clone allocates fresh
product objects.  To state the frame claim (the caller's cart objects are
never mutated) we repeat the applier and the service with product price
cells held in an explicit store: `priceRef` is an index into a list of
prices, reads go through the store, and the redistribution writes
`store.set`.  Everything else mirrors the value-level embedding above
line by line. -/

/-- A product whose `currentPrice` lives in the price store. -/
structure HProduct where
  id : String
  brand : String
  brandTier : BrandTier
  category : String
  basePrice : Rat
  priceRef : Nat
deriving DecidableEq, Repr

/-- A cart item over store-allocated products. -/
structure HCartItem where
  product : HProduct
  quantity : Rat
  size : String
deriving DecidableEq, Repr

/-- The store of mutable `currentPrice` cells; a reference is an index. -/
abbrev PriceStore := List Rat

/-- Read one item's current value view out of the store. -/
def derefItem (store : PriceStore) (item : HCartItem) : CartItem where
  product :=
    { id := item.product.id
      brand := item.product.brand
      brandTier := item.product.brandTier
      category := item.product.category
      basePrice := item.product.basePrice
      currentPrice := store.getD item.product.priceRef 0 }
  quantity := item.quantity
  size := item.size

/-- The value view of a store-allocated cart. -/
def derefCart (store : PriceStore) (cart : List HCartItem) : List CartItem :=
  cart.map (derefItem store)

/-- One iteration of the store-passing redistribution loop
(`DiscountApplier.ts` lines 79-84): read the item's current price from its
cell and write back the proportionally reduced price, floored at 0. -/
def redistStep (g : Rat) (st : PriceStore) (item : HCartItem) : PriceStore :=
  let p := st.getD item.product.priceRef 0
  let itemPrice := p * item.quantity
  let itemDiscount := itemPrice * g
  let newPrice := p - itemDiscount / item.quantity
  st.set item.product.priceRef (if newPrice > 0 then newPrice else 0)

/-- Store-passing version of the redistribution step (`DiscountApplier.ts`
lines 75-85): the ratio is fixed from the total before the loop, then each
item's cell is written in order (`item.product.currentPrice = ...`). -/
def redistributeH (store : PriceStore) (cart : List HCartItem) (discount : Rat) :
    PriceStore :=
  let totalCurrentPrice := calculateOriginalPrice (derefCart store cart)
  if totalCurrentPrice > 0 then
    cart.foldl (redistStep (discount / totalCurrentPrice)) store
  else
    store

/-- Result of the store-passing applier: the applier's return record plus
the final store. -/
structure ApplyResultH where
  store : PriceStore
  finalPrice : Rat
  appliedDiscounts : List (String × Rat)
  messages : List String

/-- Store-passing version of the main strategy loop of
`DiscountApplier.applyDiscounts` (`DiscountApplier.ts` lines 47-95); the
cart's references never change, only the store does. -/
def applyLoopH (customer : CustomerProfile) (pay : Option PaymentInfo)
    (cart : List HCartItem) :
    List DiscountStrategy → PriceStore → Rat → List (String × Rat) → List String →
      ApplyResultH
  | [], store, fp, ad, msgs => ⟨store, fp, ad, msgs⟩
  | s :: rest, store, fp, ad, msgs =>
    match s.validate (derefCart store cart) customer pay with
    | .error _ => applyLoopH customer pay cart rest store fp ad msgs
    | .ok false => applyLoopH customer pay cart rest store fp ad msgs
    | .ok true =>
      match s.calculateDiscount (derefCart store cart) customer pay with
      | .error _ => applyLoopH customer pay cart rest store fp ad msgs
      | .ok discount =>
        if discount > 0 then
          if fp - discount < 0 then
            ⟨store, 0, mapSet ad s.getDiscountName fp,
              msgs ++ ["Applied " ++ s.getDiscountName ++ " (capped)"]⟩
          else
            applyLoopH customer pay cart rest (redistributeH store cart discount)
              (fp - discount) (mapSet ad s.getDiscountName discount)
              (msgs ++ ["Applied " ++ s.getDiscountName])
        else
          applyLoopH customer pay cart rest store fp ad msgs

/-- Store-passing version of `DiscountApplier.applyDiscounts`
(`DiscountApplier.ts` lines 11-102). -/
def applyDiscountsH (strategies : List DiscountStrategy) (store : PriceStore)
    (cart : List HCartItem) (customer : CustomerProfile) (pay : Option PaymentInfo) :
    ApplyResultH :=
  let finalPrice := calculateOriginalPrice (derefCart store cart)
  let shouldApplyDiscounts := prescanLoop customer pay (derefCart store cart) strategies true
  if shouldApplyDiscounts = false then
    ⟨store, finalPrice, [], []⟩
  else
    applyLoopH customer pay cart strategies store finalPrice [] []

/-- The clone step of `DiscountService.calculateCartDiscounts`: each cart
item gets a fresh product object, i.e. a fresh price cell; cell `n + i`
holds the i-th item's current price. -/
def cloneStore (store : PriceStore) (cart : List HCartItem) : PriceStore :=
  store ++ cart.map (fun item => store.getD item.product.priceRef 0)

/-- The clone step, reference side: the i-th cloned item points at the
fresh cell `n + i` (`n` the pre-clone store size). -/
def cloneRefs (n : Nat) : List HCartItem → List HCartItem
  | [] => []
  | item :: rest =>
    { item with product := { item.product with priceRef := n } } :: cloneRefs (n + 1) rest

/-- Store-passing version of `DiscountService.calculateCartDiscounts`
(factory-based service, lines 40-90), also returning the final store so
the caller's cells can be inspected after the call. -/
def calculateCartDiscountsH (strategies : List DiscountStrategy) (store : PriceStore)
    (cartItems : Option (List HCartItem)) (customer : Option CustomerProfile)
    (pay : Option PaymentInfo) : Except String DiscountedPrice × PriceStore :=
  match cartItems with
  | none => (.error "Invalid cart items", store)
  | some items =>
    if items.length = 0 then (.error "Invalid cart items", store)
    else
      match customer with
      | none => (.error "Invalid customer profile", store)
      | some cust =>
        let originalPrice := calculateOriginalPrice (derefCart store items)
        let store1 := cloneStore store items
        let cloned := cloneRefs store.length items
        let res := applyDiscountsH (sortStrategies strategies) store1 cloned cust pay
        (if res.appliedDiscounts.length = 0 then
          .ok ⟨originalPrice, originalPrice, [], "No discounts applied"⟩
        else
          .ok ⟨originalPrice, res.finalPrice, res.appliedDiscounts,
            if res.messages.length ≠ 0 then String.intercalate ", " res.messages
            else "No discounts applied"⟩,
         res.store)

/-! ### Concrete fixtures

Concrete carts, customers and strategies used to instantiate the general
theorems and to exhibit counterexamples; drawn from the repository's test
data (`fakeData`: a PUMA PREMIUM T-shirt at 2000, customer "John Doe"). -/

/-- A concrete customer (shape of the repository's test customer). -/
def cust0 : CustomerProfile :=
  ⟨"cust1", "John Doe", "REGULAR", "john@example.com"⟩

/-- A one-item cart: PUMA PREMIUM T-shirt, price 2000, quantity 1. -/
def cartPuma : List CartItem :=
  [⟨⟨"1", "PUMA", .premium, "T-shirts", 2000, 2000⟩, 1, "M"⟩]

/-- A one-item cart with category "Shoes" (no T-shirt in any casing). -/
def cartShoes : List CartItem :=
  [⟨⟨"2", "PUMA", .premium, "Shoes", 100, 100⟩, 1, "M"⟩]

/-- A one-item cart: price 100, quantity 1. -/
def cartSmall : List CartItem :=
  [⟨⟨"3", "NIKE", .regular, "Shoes", 100, 100⟩, 1, "L"⟩]

/-- A one-item cart: price 100, quantity 2 (total 200). -/
def cartQty2 : List CartItem :=
  [⟨⟨"4", "NIKE", .regular, "Shoes", 100, 100⟩, 2, "L"⟩]

/-- The brand strategy of the repository's tests:
`new BrandDiscountStrategy({brand: 'PUMA', discountPercentage: 40})`;
its display name is "Brand Discount - PUMA (40%)". -/
def brandPumaStrategy : DiscountStrategy :=
  mkBrandStrategy ⟨"PUMA", 40, none, none⟩

/-- The category strategy config of the repository's tests:
`{category: 'T-shirts', discountPercentage: 10}`. -/
def cfgTshirts : CategoryDiscountConfig :=
  ⟨"T-shirts", 10, none, none⟩

/-- A strategy that always validates and always computes 30. -/
def flat30Strategy : DiscountStrategy :=
  ⟨.voucher, fun _ _ _ => .ok true, fun _ _ _ => .ok 30, "Voucher Discount - FLAT30 (x%)", 2⟩

/-- A strategy that always validates and always computes 500. -/
def flat500Strategy : DiscountStrategy :=
  ⟨.voucher, fun _ _ _ => .ok true, fun _ _ _ => .ok 500, "Voucher Discount - FLAT500 (x%)", 2⟩

/-- Two distinct strategies sharing one display name "Voucher Discount -
COMBO (x%)", computing 10 and 5. -/
def comboStrategyA : DiscountStrategy :=
  ⟨.voucher, fun _ _ _ => .ok true, fun _ _ _ => .ok 10, "Voucher Discount - COMBO (x%)", 2⟩

/-- Companion of `comboStrategyA` with the same display name. -/
def comboStrategyB : DiscountStrategy :=
  ⟨.voucher, fun _ _ _ => .ok true, fun _ _ _ => .ok 5, "Voucher Discount - COMBO (x%)", 2⟩

/-- A voucher-kind strategy record (priority 2, as the class hardcodes). -/
def voucherStub : DiscountStrategy :=
  ⟨.voucher, fun _ _ _ => .ok true, fun _ _ _ => .ok 0, "Voucher Discount - SUPER69 (69%)", 2⟩

/-- A bank-kind strategy record (priority 3, as the class hardcodes). -/
def bankStub : DiscountStrategy :=
  ⟨.bank, fun _ _ _ => .ok true, fun _ _ _ => .ok 0, "Bank Card Discount - ICICI (10%)", 3⟩

/-- A store-allocated one-item cart whose price cell is reference 0. -/
def hCart0 : List HCartItem :=
  [⟨⟨"1", "PUMA", .premium, "T-shirts", 2000, 0⟩, 1, "M"⟩]

/-- Whether a strategy's `getPriority` equals `p`; used to state the
stability of the applier's priority sort. -/
def hasPriority (p : Int) (s : DiscountStrategy) : Bool :=
  s.getPriority == p

/-! ### Helper lemmas -/

/-- Folding a sum from an arbitrary accumulator shifts by that accumulator. -/
theorem foldl_add_shift {α : Type} (g : α → Rat) (l : List α) (c : Rat) :
    l.foldl (fun a x => a + g x) c = c + l.foldl (fun a x => a + g x) 0 := by
  induction l generalizing c with
  | nil => simp
  | cons x l ih =>
    simp only [List.foldl_cons]
    rw [ih (c + g x), ih (0 + g x)]
    ring

/-- The cart total fold from an arbitrary accumulator. -/
theorem calculateOriginalPrice_shift (l : List CartItem) (c : Rat) :
    l.foldl (fun acc item => acc + item.product.currentPrice * item.quantity) c =
      c + calculateOriginalPrice l := by
  induction l generalizing c with
  | nil => simp [calculateOriginalPrice]
  | cons x l ih =>
    simp only [calculateOriginalPrice, List.foldl_cons] at ih ⊢
    rw [ih, ih (0 + _)]
    ring

/-- Unfolding the cart total over a cons cell. -/
theorem calculateOriginalPrice_cons (item : CartItem) (l : List CartItem) :
    calculateOriginalPrice (item :: l) =
      item.product.currentPrice * item.quantity + calculateOriginalPrice l := by
  simp only [calculateOriginalPrice, List.foldl_cons]
  rw [calculateOriginalPrice_shift]
  simp [calculateOriginalPrice]

/-- A cart of items with non-negative prices and quantities has a
non-negative total. -/
theorem calculateOriginalPrice_nonneg (cart : List CartItem)
    (h : ∀ item ∈ cart, 0 ≤ item.product.currentPrice ∧ 0 ≤ item.quantity) :
    0 ≤ calculateOriginalPrice cart := by
  induction cart with
  | nil => simp [calculateOriginalPrice]
  | cons item l ih =>
    rw [calculateOriginalPrice_cons]
    have hi := h item (List.mem_cons_self item l)
    have hl := ih (fun x hx => h x (List.mem_cons_of_mem item hx))
    have := mul_nonneg hi.1 hi.2
    linarith

/-- The preliminary scan of the applier, started from `true`, always
returns `true`. -/
theorem prescanLoop_true (customer : CustomerProfile) (pay : Option PaymentInfo)
    (cart : List CartItem) (strategies : List DiscountStrategy) :
    prescanLoop customer pay cart strategies true = true := by
  induction strategies with
  | nil => rfl
  | cons s rest ih =>
    cases h : s.validate cart customer pay with
    | error e => simp [prescanLoop, h, ih]
    | ok b => cases b <;> simp [prescanLoop, h, ih]

/-- The discount-map value sum from an arbitrary accumulator. -/
theorem sumValues_shift (m : List (String × Rat)) (c : Rat) :
    m.foldl (fun acc p => acc + p.2) c = c + sumValues m := by
  induction m generalizing c with
  | nil => simp [sumValues]
  | cons x m ih =>
    simp only [sumValues, List.foldl_cons] at ih ⊢
    rw [ih, ih (0 + _)]
    ring

/-- Appending a fresh key to the discount map adds its value to the sum. -/
theorem sumValues_append (m : List (String × Rat)) (k : String) (v : Rat) :
    sumValues (m ++ [(k, v)]) = sumValues m + v := by
  simp only [sumValues, List.foldl_append, List.foldl_cons, List.foldl_nil]

/-- Setting a key that is not yet present appends it. -/
theorem mapSet_of_not_mem (m : List (String × Rat)) (k : String) (v : Rat)
    (h : k ∉ m.map Prod.fst) : mapSet m k v = m ++ [(k, v)] := by
  have : m.any (fun p => p.1 = k) = false := by
    simp only [List.any_eq_false, decide_eq_true_eq]
    intro p hp hk
    exact h (hk ▸ List.mem_map_of_mem Prod.fst hp)
  simp [mapSet, this]

/-! ### Claim C10: the preliminary scan is observationally irrelevant -/

/-- C10: in `DiscountApplier.applyDiscounts`, the preliminary scan over the
strategies never changes the result: `shouldApplyDiscounts` starts `true`
and the scan can only confirm it, so the early-return branch for "no
applicable strategies" is unreachable, and the function agrees with the
variant that omits the scan (`DiscountApplier.ts` lines 24-45) on every
cart, customer, payment info and strategy list. -/
theorem prescan_observationally_equivalent (strategies : List DiscountStrategy)
    (cart : List CartItem) (customer : CustomerProfile) (pay : Option PaymentInfo) :
    applyDiscounts strategies cart customer pay =
      applyDiscountsNoPrescan strategies cart customer pay := by
  simp [applyDiscounts, applyDiscountsNoPrescan, prescanLoop_true]

/-! ### Claim C1: the final price is between 0 and the original price -/

/-- Each pass of the applier's main loop keeps the running final price
between 0 and its value at entry. -/
theorem applyLoop_finalPrice_bounds (customer : CustomerProfile) (pay : Option PaymentInfo)
    (strategies : List DiscountStrategy) :
    ∀ (cart : List CartItem) (fp : Rat) (ad : List (String × Rat)) (msgs : List String),
      0 ≤ fp →
      0 ≤ (applyLoop customer pay strategies cart fp ad msgs).finalPrice ∧
        (applyLoop customer pay strategies cart fp ad msgs).finalPrice ≤ fp := by
  induction strategies with
  | nil => intro cart fp ad msgs h; exact ⟨h, le_refl fp⟩
  | cons s rest ih =>
    intro cart fp ad msgs h
    cases hv : s.validate cart customer pay with
    | error e => simpa only [applyLoop, hv] using ih cart fp ad msgs h
    | ok b =>
      cases b with
      | false => simpa only [applyLoop, hv] using ih cart fp ad msgs h
      | true =>
        cases hc : s.calculateDiscount cart customer pay with
        | error e => simpa only [applyLoop, hv, hc] using ih cart fp ad msgs h
        | ok d =>
          simp only [applyLoop, hv, hc]
          split_ifs with hd hneg
          · exact ⟨le_refl 0, h⟩
          · have hge : 0 ≤ fp - d := not_lt.mp hneg
            have := ih (redistribute cart d) (fp - d)
              (mapSet ad s.getDiscountName d)
              (msgs ++ ["Applied " ++ s.getDiscountName]) hge
            exact ⟨this.1, le_trans this.2 (by linarith)⟩
          · exact ih cart fp ad msgs h

/-- C1: for every valid cart (non-empty, non-negative `currentPrice`,
`quantity ≥ 1`), every customer, optional payment info and strategy list,
`DiscountApplier.applyDiscounts` returns a `finalPrice` with
`0 ≤ finalPrice ≤ originalPrice`, the original price being the sum of
`currentPrice × quantity` before any mutation. -/
theorem applier_finalPrice_bounded (strategies : List DiscountStrategy)
    (cart : List CartItem) (customer : CustomerProfile) (pay : Option PaymentInfo)
    (hne : cart ≠ [])
    (hvalid : ∀ item ∈ cart, 0 ≤ item.product.currentPrice ∧ 1 ≤ item.quantity) :
    0 ≤ (applyDiscounts strategies cart customer pay).finalPrice ∧
      (applyDiscounts strategies cart customer pay).finalPrice ≤
        calculateOriginalPrice cart := by
  have h0 : 0 ≤ calculateOriginalPrice cart :=
    calculateOriginalPrice_nonneg cart
      (fun i hi => ⟨(hvalid i hi).1, le_trans zero_le_one (hvalid i hi).2⟩)
  simp only [applyDiscounts, prescanLoop_true, Bool.true_eq_false, if_false]
  exact applyLoop_finalPrice_bounds customer pay strategies cart
    (calculateOriginalPrice cart) [] [] h0

/-- Witness for C1: the PUMA cart (total 2000) with a flat-30 strategy
lands at 1970, inside the required bounds. -/
theorem applier_finalPrice_bounded_witness :
    0 ≤ (applyDiscounts [flat30Strategy] cartPuma cust0 none).finalPrice ∧
      (applyDiscounts [flat30Strategy] cartPuma cust0 none).finalPrice ≤
        calculateOriginalPrice cartPuma :=
  applier_finalPrice_bounded [flat30Strategy] cartPuma cust0 none
    (by decide) (by decide)

/-! ### Claim C3: a capped discount records the balance and stops the loop -/

/-- C3: at any state of the applier's main loop, when the next strategy
validates, computes a positive discount `d`, and `finalPrice - d` would be
negative, the loop records `appliedDiscounts[name] = finalPrice` (the
remaining balance before the step, not `d`), sets `finalPrice` to 0,
appends an `"(capped)"` message, and returns immediately: the result is
independent of the remaining strategies `rest`, so no subsequent strategy
entry can appear in `appliedDiscounts` or `messages`, and the cart is not
redistributed. -/
theorem applier_capping_stops_pipeline (s : DiscountStrategy)
    (rest : List DiscountStrategy) (cart : List CartItem)
    (customer : CustomerProfile) (pay : Option PaymentInfo)
    (fp d : Rat) (ad : List (String × Rat)) (msgs : List String)
    (hv : s.validate cart customer pay = .ok true)
    (hc : s.calculateDiscount cart customer pay = .ok d)
    (hd : 0 < d) (hneg : fp - d < 0) :
    applyLoop customer pay (s :: rest) cart fp ad msgs =
      ⟨cart, 0, mapSet ad s.getDiscountName fp,
        msgs ++ ["Applied " ++ s.getDiscountName ++ " (capped)"]⟩ := by
  simp [applyLoop, hv, hc, hd, hneg]

/-- Witness for C3: a flat-500 strategy against a remaining balance of 100
caps to 0, records 100 under its name, and drops the following flat-30
strategy entirely. -/
theorem applier_capping_stops_pipeline_witness :
    applyLoop cust0 none [flat500Strategy, flat30Strategy] cartSmall 100 [] [] =
      ⟨cartSmall, 0, mapSet [] flat500Strategy.getDiscountName 100,
        [] ++ ["Applied " ++ flat500Strategy.getDiscountName ++ " (capped)"]⟩ :=
  applier_capping_stops_pipeline flat500Strategy [flat30Strategy] cartSmall cust0 none
    100 500 [] [] (by rfl) (by rfl) (by norm_num) (by norm_num)

/-! ### Claim C2: originalPrice − finalPrice equals the sum of recorded
discounts (corrected: requires pairwise-distinct display names) -/

/-- The applier's main loop increases the recorded-discount sum by exactly
the drop in the running final price, provided the strategies' display
names are distinct and none of them is already a key of the accumulator
map. -/
theorem applyLoop_sum_eq_drop (customer : CustomerProfile) (pay : Option PaymentInfo)
    (strategies : List DiscountStrategy) :
    ∀ (cart : List CartItem) (fp : Rat) (ad : List (String × Rat)) (msgs : List String),
      (strategies.map (fun s => s.getDiscountName)).Nodup →
      (∀ k ∈ ad.map Prod.fst, k ∉ strategies.map (fun s => s.getDiscountName)) →
      sumValues (applyLoop customer pay strategies cart fp ad msgs).appliedDiscounts =
        sumValues ad + (fp - (applyLoop customer pay strategies cart fp ad msgs).finalPrice) := by
  induction strategies with
  | nil => intro cart fp ad msgs _ _; simp [applyLoop]
  | cons s rest ih =>
    intro cart fp ad msgs hnd hdisj
    have hnd' : (rest.map (fun s => s.getDiscountName)).Nodup :=
      (List.nodup_cons.mp hnd).2
    have hname : s.getDiscountName ∉ rest.map (fun s => s.getDiscountName) :=
      (List.nodup_cons.mp hnd).1
    have hdisj' : ∀ k ∈ ad.map Prod.fst, k ∉ rest.map (fun s => s.getDiscountName) :=
      fun k hk => fun hmem => hdisj k hk (List.mem_cons_of_mem _ hmem)
    have hfresh : s.getDiscountName ∉ ad.map Prod.fst :=
      fun hmem => hdisj _ hmem (List.mem_cons_self _ _)
    cases hv : s.validate cart customer pay with
    | error e =>
      simp only [applyLoop, hv]
      rw [ih cart fp ad msgs hnd' hdisj']
    | ok b =>
      cases b with
      | false =>
        simp only [applyLoop, hv]
        rw [ih cart fp ad msgs hnd' hdisj']
      | true =>
        cases hc : s.calculateDiscount cart customer pay with
        | error e =>
          simp only [applyLoop, hv, hc]
          rw [ih cart fp ad msgs hnd' hdisj']
        | ok d =>
          simp only [applyLoop, hv, hc]
          split_ifs with hd hneg
          · simp only
            rw [mapSet_of_not_mem ad s.getDiscountName fp hfresh, sumValues_append]
            ring
          · have hkeys : ∀ k ∈ (mapSet ad s.getDiscountName d).map Prod.fst,
                k ∉ rest.map (fun s => s.getDiscountName) := by
              rw [mapSet_of_not_mem ad s.getDiscountName d hfresh]
              intro k hk
              rcases List.mem_map.mp hk with ⟨p, hp, hpk⟩
              rcases List.mem_append.mp hp with hpl | hpr
              · exact hdisj' k (hpk ▸ List.mem_map_of_mem Prod.fst hpl)
              · have hp1 : p = (s.getDiscountName, d) := List.mem_singleton.mp hpr
                subst hp1
                have hk2 : s.getDiscountName = k := hpk
                rw [← hk2]
                exact hname
            rw [ih (redistribute cart d) (fp - d) (mapSet ad s.getDiscountName d)
              (msgs ++ ["Applied " ++ s.getDiscountName]) hnd' hkeys]
            rw [mapSet_of_not_mem ad s.getDiscountName d hfresh, sumValues_append]
            ring
          · rw [ih cart fp ad msgs hnd' hdisj']

/-- C2 counterexample: with two strategies sharing the display name
"Voucher Discount - COMBO (x%)" (discounts 10 and 5) on a cart totalling
100, `Map.set` overwrites the first entry, so `originalPrice − finalPrice
= 15` while the map values sum to 5 — a gap of 10, far beyond any rounding
at 10 significant digits. -/
theorem appliedDiscounts_sum_counterexample :
    ¬ (calculateOriginalPrice cartSmall -
        (applyDiscounts [comboStrategyA, comboStrategyB] cartSmall cust0 none).finalPrice =
      sumValues (applyDiscounts [comboStrategyA, comboStrategyB] cartSmall cust0
          none).appliedDiscounts) := by
  norm_num [applyDiscounts, applyLoop, prescanLoop, redistribute, updateItemPrice,
    calculateOriginalPrice, mapSet, sumValues, comboStrategyA, comboStrategyB, cartSmall]

/-- C2 as amended: for every valid cart, customer, optional payment info
and strategy list *whose display names are pairwise distinct* (which holds
for every strategy set produced by the factory registry, since it keys
strategies by display name), `originalPrice − finalPrice` equals the sum
of the values of `appliedDiscounts` exactly. -/
theorem applier_discount_conservation (strategies : List DiscountStrategy)
    (cart : List CartItem) (customer : CustomerProfile) (pay : Option PaymentInfo)
    (hnames : (strategies.map (fun s => s.getDiscountName)).Nodup) :
    calculateOriginalPrice cart -
        (applyDiscounts strategies cart customer pay).finalPrice =
      sumValues (applyDiscounts strategies cart customer pay).appliedDiscounts := by
  simp only [applyDiscounts, prescanLoop_true, Bool.true_eq_false, if_false]
  rw [applyLoop_sum_eq_drop customer pay strategies cart
    (calculateOriginalPrice cart) [] [] hnames (by simp [sumValues])]
  simp [sumValues]

/-- Witness for C2 (amended): the PUMA cart with the distinct-named
flat-30 and flat-500 strategies. -/
theorem applier_discount_conservation_witness :
    calculateOriginalPrice cartPuma -
        (applyDiscounts [flat30Strategy, flat500Strategy] cartPuma cust0 none).finalPrice =
      sumValues (applyDiscounts [flat30Strategy, flat500Strategy] cartPuma cust0
          none).appliedDiscounts :=
  applier_discount_conservation [flat30Strategy, flat500Strategy] cartPuma cust0 none
    (by decide)

/-! ### Claim C5: proportional redistribution keeps the cart total equal
to the running final price -/

/-- For a scaling ratio at most 1, one redistribution update multiplies a
valid item's price by `1 - ratio`: the floor at 0 never truncates. -/
theorem updateItemPrice_value (r : Rat) (item : CartItem)
    (hp : 0 ≤ item.product.currentPrice) (hq : 1 ≤ item.quantity) (hr : r ≤ 1) :
    (updateItemPrice r item).product.currentPrice =
      item.product.currentPrice * (1 - r) := by
  have hq0 : item.quantity ≠ 0 := ne_of_gt (lt_of_lt_of_le zero_lt_one hq)
  simp only [updateItemPrice]
  have hdiv : item.product.currentPrice * item.quantity * r / item.quantity
      = item.product.currentPrice * r := by
    field_simp
    ring
  rw [hdiv]
  have hval : item.product.currentPrice - item.product.currentPrice * r
      = item.product.currentPrice * (1 - r) := by ring
  rw [hval]
  have hnn : 0 ≤ item.product.currentPrice * (1 - r) := mul_nonneg hp (by linarith)
  split_ifs with h
  · rfl
  · have := not_lt.mp h
    linarith

/-- The redistribution update keeps each item's quantity. -/
theorem updateItemPrice_quantity (r : Rat) (item : CartItem) :
    (updateItemPrice r item).quantity = item.quantity := rfl

/-- Updating every valid item by ratio `r ≤ 1` scales the cart total by
`1 - r`. -/
theorem calculateOriginalPrice_map_update (r : Rat) (cart : List CartItem)
    (hvalid : ∀ item ∈ cart, 0 ≤ item.product.currentPrice ∧ 1 ≤ item.quantity)
    (hr : r ≤ 1) :
    calculateOriginalPrice (cart.map (updateItemPrice r)) =
      calculateOriginalPrice cart * (1 - r) := by
  induction cart with
  | nil => simp [calculateOriginalPrice]
  | cons item l ih =>
    have hitem := hvalid item (List.mem_cons_self item l)
    have hl := ih (fun x hx => hvalid x (List.mem_cons_of_mem item hx))
    simp only [List.map_cons]
    rw [calculateOriginalPrice_cons, calculateOriginalPrice_cons,
      updateItemPrice_quantity, updateItemPrice_value r item hitem.1 hitem.2 hr, hl]
    ring

/-- C5: whenever the invariant `cart total = finalPrice` holds before a
non-capped application of a positive discount `d` (non-capped meaning
`finalPrice - d ≥ 0`) to a valid cart, the proportional redistribution
step (`ratio = d / total-before-step`, each price reduced by
`price × quantity × ratio / quantity`, floored at 0) restores the
invariant: the new cart total equals the new running final price
`finalPrice - d`, exactly in the exact-decimal model. -/
theorem redistribute_restores_invariant (cart : List CartItem) (fp d : Rat)
    (hvalid : ∀ item ∈ cart, 0 ≤ item.product.currentPrice ∧ 1 ≤ item.quantity)
    (hsync : calculateOriginalPrice cart = fp)
    (hd : 0 < d) (hcap : 0 ≤ fp - d) :
    calculateOriginalPrice (redistribute cart d) = fp - d := by
  have hfp : d ≤ fp := by linarith
  have htot : 0 < calculateOriginalPrice cart := by
    rw [hsync]; linarith
  have hr : d / calculateOriginalPrice cart ≤ 1 :=
    (div_le_one htot).mpr (by linarith [hsync])
  simp only [redistribute, htot, if_pos]
  rw [calculateOriginalPrice_map_update _ cart hvalid hr]
  rw [hsync] at htot ⊢
  field_simp

/-- Witness for C5: a quantity-2 item at price 100 (total 200 = running
final price) under discount 50 ends at per-item price 75, total 150 =
200 − 50. -/
theorem redistribute_restores_invariant_witness :
    calculateOriginalPrice (redistribute cartQty2 50) = 200 - 50 :=
  redistribute_restores_invariant cartQty2 200 50 (by decide)
    (by norm_num [calculateOriginalPrice, cartQty2]) (by norm_num) (by norm_num)

/-! ### Claim C4: strategies are applied in stable priority order -/

/-- Inserting a strategy of a different priority does not disturb the
`p`-priority sublist. -/
theorem filter_orderedInsert_of_ne (p : Int) (a : DiscountStrategy)
    (l : List DiscountStrategy) (ha : (a.getPriority == p) = false) :
    (List.orderedInsert strategyLE a l).filter (hasPriority p) =
      l.filter (hasPriority p) := by
  induction l with
  | nil => simp [hasPriority, ha]
  | cons b l ih =>
    by_cases hab : strategyLE a b
    · simp [hab, List.filter_cons, hasPriority, ha]
    · simp only [List.orderedInsert, if_neg hab, List.filter_cons]
      rw [ih]

/-- Inserting into a list whose members all carry priority `p` a strategy
that also carries priority `p` puts it in front. -/
theorem orderedInsert_all_same (p : Int) (a : DiscountStrategy)
    (m : List DiscountStrategy) (ha : (a.getPriority == p) = true)
    (hm : ∀ c ∈ m, (c.getPriority == p) = true) :
    List.orderedInsert strategyLE a m = a :: m := by
  cases m with
  | nil => rfl
  | cons c m =>
    have hc := hm c (List.mem_cons_self c m)
    have hle : strategyLE a c := by
      have ha' : a.getPriority = p := by simpa using ha
      have hc' : c.getPriority = p := by simpa using hc
      simp [strategyLE, ha', hc']
    simp [hle]

/-- Inserting a strategy of priority `p` commutes with restricting to the
`p`-priority sublist. -/
theorem filter_orderedInsert_of_eq (p : Int) (a : DiscountStrategy)
    (l : List DiscountStrategy) (ha : (a.getPriority == p) = true) :
    (List.orderedInsert strategyLE a l).filter (hasPriority p) =
      List.orderedInsert strategyLE a (l.filter (hasPriority p)) := by
  induction l with
  | nil => simp [hasPriority, ha]
  | cons b l ih =>
    by_cases hab : strategyLE a b
    · by_cases hb : (b.getPriority == p) = true
      · simp [hab, List.filter_cons, hasPriority, ha, hb]
      · have hall : ∀ c ∈ l.filter (hasPriority p), (c.getPriority == p) = true := by
          intro c hc
          have := (List.mem_filter.mp hc).2
          simpa [hasPriority] using this
        have hb' : (b.getPriority == p) = false := by simpa using hb
        simp only [List.orderedInsert, if_pos hab, List.filter_cons, hasPriority, ha,
          hb', if_pos, if_neg, Bool.false_eq_true, if_false, if_true]
        rw [orderedInsert_all_same p a (l.filter (hasPriority p)) ha hall]
    · have hb : (b.getPriority == p) = false := by
        have hgt : ¬ a.getPriority ≤ b.getPriority := hab
        have ha' : a.getPriority = p := by simpa using ha
        have : b.getPriority ≠ p := by omega
        simpa using this
      simp only [List.orderedInsert, if_neg hab, List.filter_cons, hasPriority, hb,
        Bool.false_eq_true, if_false]
      rw [ih]

/-- Filtering one priority class out of the applier's sort equals sorting
the filtered input. -/
theorem filter_insertionSort (p : Int) (l : List DiscountStrategy) :
    (List.insertionSort strategyLE l).filter (hasPriority p) =
      List.insertionSort strategyLE (l.filter (hasPriority p)) := by
  induction l with
  | nil => rfl
  | cons a l ih =>
    by_cases ha : (a.getPriority == p) = true
    · simp only [List.insertionSort, List.filter_cons, hasPriority, ha, if_true]
      rw [filter_orderedInsert_of_eq p a _ ha, ih]
    · have ha' : (a.getPriority == p) = false := by simpa using ha
      simp only [List.insertionSort, List.filter_cons, hasPriority, ha',
        Bool.false_eq_true, if_false]
      rw [filter_orderedInsert_of_ne p a _ ha', ih]

/-- The applier's sort keeps each priority class in registration order
(stability). -/
theorem sortStrategies_stable (p : Int) (l : List DiscountStrategy) :
    (sortStrategies l).filter (hasPriority p) = l.filter (hasPriority p) := by
  rw [sortStrategies, filter_insertionSort]
  apply List.Sorted.insertionSort_eq
  apply List.pairwise_of_forall_mem_list
  intro a ha b hb
  have ha' : a.getPriority = p := by
    have := (List.mem_filter.mp ha).2
    simpa [hasPriority] using this
  have hb' : b.getPriority = p := by
    have := (List.mem_filter.mp hb).2
    simpa [hasPriority] using this
  simp [strategyLE, ha', hb']

/-- C4: for every registration order of strategies drawn from the four
classes (so that `getPriority` is 1 for Brand and Category, 2 for Voucher,
3 for BankCard), the applier's constructor sort produces a permutation of
the input that is ordered by class priority — every Brand/Category
strategy before every Voucher strategy before every BankCard strategy —
and the priority-1 (Brand/Category) strategies keep their insertion
order. -/
theorem applier_strategy_priority_order (l : List DiscountStrategy)
    (hk : ∀ s ∈ l, s.getPriority = priorityOfKind s.kind) :
    (sortStrategies l).Perm l
    ∧ (sortStrategies l).Pairwise
        (fun a b => priorityOfKind a.kind ≤ priorityOfKind b.kind)
    ∧ (sortStrategies l).filter (hasPriority 1) = l.filter (hasPriority 1) := by
  refine ⟨List.perm_insertionSort strategyLE l, ?_, sortStrategies_stable 1 l⟩
  have hs : (sortStrategies l).Pairwise strategyLE :=
    List.sorted_insertionSort strategyLE l
  refine hs.imp_of_mem ?_
  intro a b hal hbl hab
  have ha := hk a ((List.mem_insertionSort strategyLE).mp hal)
  have hb := hk b ((List.mem_insertionSort strategyLE).mp hbl)
  rw [← ha, ← hb]
  exact hab

/-- Witness for C4: registering BankCard, Voucher, Brand in that order
still yields Brand before Voucher before BankCard after the sort. -/
theorem applier_strategy_priority_order_witness :
    (sortStrategies [bankStub, voucherStub, brandPumaStrategy]).Perm
        [bankStub, voucherStub, brandPumaStrategy]
    ∧ (sortStrategies [bankStub, voucherStub, brandPumaStrategy]).Pairwise
        (fun a b => priorityOfKind a.kind ≤ priorityOfKind b.kind)
    ∧ (sortStrategies [bankStub, voucherStub, brandPumaStrategy]).filter (hasPriority 1)
        = [bankStub, voucherStub, brandPumaStrategy].filter (hasPriority 1) :=
  applier_strategy_priority_order [bankStub, voucherStub, brandPumaStrategy]
    (by intro s hs; fin_cases hs <;> rfl)

/-! ### Claim C6: the service throws exactly on its two precondition
checks -/

/-- C6: `DiscountService.calculateCartDiscounts` returns an error exactly
when the cart is missing (`none`, covering `null`/`undefined`/non-array)
or empty, or the customer is missing; for every input passing the two
precondition checks it returns a result normally — every downstream
condition (inapplicable strategy, zero discount, strategy error, capping)
only changes the returned structure, never raises. -/
theorem service_invalid_input_iff (strategies : List DiscountStrategy)
    (cartItems : Option (List CartItem)) (customer : Option CustomerProfile)
    (pay : Option PaymentInfo) :
    (calculateCartDiscounts strategies cartItems customer pay).isOk = false ↔
      cartItems = none ∨ cartItems = some [] ∨ customer = none := by
  cases cartItems with
  | none => simp [calculateCartDiscounts, Except.isOk, Except.toBool]
  | some items =>
    cases items with
    | nil => simp [calculateCartDiscounts, Except.isOk, Except.toBool]
    | cons i l =>
      cases customer with
      | none => simp [calculateCartDiscounts, Except.isOk, Except.toBool]
      | some cust =>
        simp only [calculateCartDiscounts, List.length_cons]
        have hlen : ¬ (l.length + 1 = 0) := by omega
        rw [if_neg hlen]
        split_ifs <;> simp [Except.isOk, Except.toBool]

/-! ### Claim C9: what the Category strategy's validate actually checks
(corrected: exact, case-sensitive match; no matching item required) -/

/-- The category-matching fold of the default category validator, from an
arbitrary accumulator. -/
theorem categoryFold_shift (cat : String) (l : List CartItem) (c : Rat) :
    l.foldl
        (fun acc item =>
          if item.product.category = cat then
            acc + item.product.currentPrice * item.quantity
          else acc) c =
      c + l.foldl
        (fun acc item =>
          if item.product.category = cat then
            acc + item.product.currentPrice * item.quantity
          else acc) 0 := by
  induction l generalizing c with
  | nil => simp
  | cons i l ih =>
    simp only [List.foldl_cons]
    by_cases h : i.product.category = cat
    · simp only [if_pos h]
      rw [ih (c + _), ih (0 + _)]
      ring
    · simp only [if_neg h]
      exact ih c

/-- The category-matching fold equals the sum of `currentPrice × quantity`
over the items whose category equals the configured one exactly. -/
theorem categoryFold_eq_sum (cat : String) (items : List CartItem) :
    items.foldl
        (fun acc item =>
          if item.product.category = cat then
            acc + item.product.currentPrice * item.quantity
          else acc) 0 =
      ((items.filter (fun i => i.product.category = cat)).map
          (fun i => i.product.currentPrice * i.quantity)).sum := by
  induction items with
  | nil => simp
  | cons i l ih =>
    simp only [List.foldl_cons, List.filter_cons]
    by_cases h : i.product.category = cat
    · rw [if_pos h, categoryFold_shift, ih]
      simp [h]
    · rw [if_neg h]
      simp only [h, decide_False, Bool.false_eq_true, if_false]
      exact ih

/-- C9 counterexample: with the test configuration (category "T-shirts",
no minimum) and a cart containing only a "Shoes" item — no item matching
"T-shirts" in any casing — `CategoryDiscountStrategy.validate` returns
`true`, where the claim requires `false`. -/
theorem category_validate_counterexample :
    (mkCategoryStrategy cfgTshirts).validate cartShoes cust0 none = .ok true
    ∧ ((cartShoes.map (fun i => upperChars i.product.category.toList)).contains
        (upperChars cfgTshirts.category.toList)) = false := by
  constructor
  · rfl
  · rfl

/-- C9 as amended: the Category strategy's `validate` (with the default
validator) ignores whether any item matches at all and compares categories
exactly (case-sensitively): it returns `true` if and only if the
configured minimum cart amount, when present, is at most the sum of
`currentPrice × quantity` over the items whose category equals the
configured category exactly; in particular a cart with no matching item
still validates whenever no minimum is configured. -/
theorem category_validate_characterization (items : List CartItem)
    (customer : CustomerProfile) (config : CategoryDiscountConfig)
    (pay : Option PaymentInfo) :
    (mkCategoryStrategy config).validate items customer pay = .ok true ↔
      (match config.minimumCartAmount with
       | none => True
       | some m =>
         m ≤ ((items.filter (fun i => i.product.category = config.category)).map
             (fun i => i.product.currentPrice * i.quantity)).sum) := by
  show Except.ok (defaultCategoryValidate items customer config) = .ok true ↔ _
  rw [show (Except.ok (defaultCategoryValidate items customer config) =
      (.ok true : Except String Bool)) ↔ defaultCategoryValidate items customer config = true
    from ⟨fun h => by injection h, fun h => by rw [h]⟩]
  simp only [defaultCategoryValidate]
  cases hm : config.minimumCartAmount with
  | none => simp
  | some m =>
    simp only [Bool.not_eq_eq_eq_not, Bool.not_true, decide_eq_false_iff_not, not_lt]
    rw [categoryFold_eq_sum]

/-! ### Claim C8: validateDiscountCode searches all registered strategies
(corrected: not only Voucher strategies) -/

/-- C8 counterexample: with only the tests' Brand strategy registered
(display name "Brand Discount - PUMA (40%)", not a Voucher), the code
"puma" matches it and `validateDiscountCode` returns that strategy's
validation result `true`, where the claim — no Voucher strategy
registered, so no lookup hit — requires `false`. -/
theorem validate_code_counterexample :
    brandPumaStrategy.kind = StrategyKind.brand
    ∧ validateDiscountCode [brandPumaStrategy] (some "puma") cartPuma cust0 = true := by
  constructor
  · rfl
  · rfl

/-- C8 as amended: `validateDiscountCode` returns `false` (never throws)
for a missing or empty code; it looks up the first *registered strategy of
any kind* whose display name contains the upper-cased code
(case-insensitively in the code argument only), returns `false` if none
matches, and otherwise returns that strategy's `validate` result with no
payment info passed, with a thrown validation error turned into `false`. -/
theorem validate_code_any_strategy (strategies : List DiscountStrategy)
    (c : String) (items : List CartItem) (customer : CustomerProfile) :
    (validateDiscountCode strategies none items customer = false)
    ∧ (validateDiscountCode strategies (some "") items customer = false)
    ∧ ((∀ s ∈ strategies,
          containsSub s.getDiscountName.toList (upperChars c.toList) = false) →
        validateDiscountCode strategies (some c) items customer = false)
    ∧ (∀ s, strategies.find?
          (fun t => containsSub t.getDiscountName.toList (upperChars c.toList)) = some s →
        c ≠ "" →
        validateDiscountCode strategies (some c) items customer =
          (match s.validate items customer none with
           | .ok b => b
           | .error _ => false)) := by
  refine ⟨rfl, rfl, ?_, ?_⟩
  · intro hall
    have hnone : strategies.find?
        (fun t => containsSub t.getDiscountName.toList (upperChars c.toList)) = none :=
      List.find?_eq_none.mpr (fun s hs => by simpa using hall s hs)
    simp only [validateDiscountCode, hnone]
    split_ifs <;> rfl
  · intro s hfind hc
    simp only [validateDiscountCode, hfind, if_neg hc]

/-- Witness for C8 (amended): the code "zzz" matches no registered
strategy and is rejected; the proof instantiates the amended theorem. -/
theorem validate_code_any_strategy_witness :
    validateDiscountCode [brandPumaStrategy] (some "zzz") cartPuma cust0 = false :=
  (validate_code_any_strategy [brandPumaStrategy] "zzz" cartPuma cust0).2.2.1
    (by decide)

/-! ### Claim C7: the service's clone shields the caller's cart from
mutation -/

/-- Writing one cell leaves every other cell unchanged. -/
theorem getD_set_ne (store : PriceStore) (i r : Nat) (v : Rat) (h : i ≠ r) :
    (store.set i v).getD r 0 = store.getD r 0 := by
  rw [List.getD_eq_getElem?_getD, List.getD_eq_getElem?_getD,
    List.getElem?_set_ne h]

/-- The redistribution loop writes only the cells referenced by its cart. -/
theorem redistStep_foldl_frame (g : Rat) (cart : List HCartItem) (r : Nat)
    (h : ∀ item ∈ cart, item.product.priceRef ≠ r) :
    ∀ store : PriceStore,
      (cart.foldl (redistStep g) store).getD r 0 = store.getD r 0 := by
  induction cart with
  | nil => intro store; rfl
  | cons item l ih =>
    intro store
    rw [List.foldl_cons, ih (fun x hx => h x (List.mem_cons_of_mem item hx))]
    simp only [redistStep]
    exact getD_set_ne store item.product.priceRef r _ (h item (List.mem_cons_self item l))

/-- The store-passing redistribution leaves cells outside the cart
untouched. -/
theorem redistributeH_frame (store : PriceStore) (cart : List HCartItem)
    (d : Rat) (r : Nat) (h : ∀ item ∈ cart, item.product.priceRef ≠ r) :
    (redistributeH store cart d).getD r 0 = store.getD r 0 := by
  simp only [redistributeH]
  split_ifs with ht
  · exact redistStep_foldl_frame _ cart r h store
  · rfl

/-- The store-passing applier loop writes only the cells referenced by its
cart. -/
theorem applyLoopH_frame (customer : CustomerProfile) (pay : Option PaymentInfo)
    (cart : List HCartItem) (r : Nat)
    (h : ∀ item ∈ cart, item.product.priceRef ≠ r)
    (strategies : List DiscountStrategy) :
    ∀ (store : PriceStore) (fp : Rat) (ad : List (String × Rat)) (msgs : List String),
      (applyLoopH customer pay cart strategies store fp ad msgs).store.getD r 0 =
        store.getD r 0 := by
  induction strategies with
  | nil => intro store fp ad msgs; rfl
  | cons s rest ih =>
    intro store fp ad msgs
    cases hv : s.validate (derefCart store cart) customer pay with
    | error e => simp only [applyLoopH, hv]; exact ih store fp ad msgs
    | ok b =>
      cases b with
      | false => simp only [applyLoopH, hv]; exact ih store fp ad msgs
      | true =>
        cases hc : s.calculateDiscount (derefCart store cart) customer pay with
        | error e => simp only [applyLoopH, hv, hc]; exact ih store fp ad msgs
        | ok d =>
          simp only [applyLoopH, hv, hc]
          split_ifs with hd hneg
          · rfl
          · rw [ih (redistributeH store cart d) (fp - d) _ _]
            exact redistributeH_frame store cart d r h
          · exact ih store fp ad msgs

/-- Every reference allocated by the clone is at least the pre-clone store
size. -/
theorem cloneRefs_ge (items : List HCartItem) :
    ∀ n, ∀ item ∈ cloneRefs n items, n ≤ item.product.priceRef := by
  induction items with
  | nil => intro n item h; simp [cloneRefs] at h
  | cons i l ih =>
    intro n item h
    rcases List.mem_cons.mp h with h1 | h2
    · subst h1; exact Nat.le_refl n
    · exact Nat.le_trans (Nat.le_succ n) (ih (n + 1) item h2)

/-- The clone's appended cells do not disturb existing cells. -/
theorem cloneStore_getD (store : PriceStore) (items : List HCartItem) (r : Nat)
    (h : r < store.length) :
    (cloneStore store items).getD r 0 = store.getD r 0 := by
  rw [cloneStore, List.getD_eq_getElem?_getD, List.getD_eq_getElem?_getD,
    List.getElem?_append, if_pos h]

/-- C7: `DiscountService.calculateCartDiscounts` clones each cart item
with a fresh deep-copied price cell before processing, so after the call
every price cell of the caller's original cart still holds its pre-call
value: only the freshly allocated clone cells are ever written by the
applier. -/
theorem service_preserves_caller_cart (strategies : List DiscountStrategy)
    (store : PriceStore) (items : List HCartItem) (customer : CustomerProfile)
    (pay : Option PaymentInfo)
    (href : ∀ item ∈ items, item.product.priceRef < store.length) :
    ∀ item ∈ items,
      ((calculateCartDiscountsH strategies store (some items) (some customer)
          pay).2).getD item.product.priceRef 0 =
        store.getD item.product.priceRef 0 := by
  intro item hitem
  have hr := href item hitem
  have hfresh : ∀ it ∈ cloneRefs store.length items,
      it.product.priceRef ≠ item.product.priceRef := by
    intro it hit
    have := cloneRefs_ge items store.length it hit
    omega
  have hmain : (applyDiscountsH (sortStrategies strategies) (cloneStore store items)
      (cloneRefs store.length items) customer pay).store.getD item.product.priceRef 0 =
        store.getD item.product.priceRef 0 := by
    simp only [applyDiscountsH]
    split_ifs
    · exact cloneStore_getD store items item.product.priceRef hr
    · rw [applyLoopH_frame customer pay (cloneRefs store.length items)
        item.product.priceRef hfresh (sortStrategies strategies)
        (cloneStore store items) _ [] []]
      exact cloneStore_getD store items item.product.priceRef hr
  simp only [calculateCartDiscountsH]
  split_ifs
  · rfl
  all_goals simpa using hmain

/-- Witness for C7: a singleton store holding price 2000 referenced by the
caller's one-item cart is unchanged after a calculation that applies a
flat-30 discount to the clone. -/
theorem service_preserves_caller_cart_witness :
    ((calculateCartDiscountsH [flat30Strategy] [(2000 : Rat)] (some hCart0)
        (some cust0) none).2).getD 0 0 = [(2000 : Rat)].getD 0 0 :=
  service_preserves_caller_cart [flat30Strategy] [(2000 : Rat)] hCart0 cust0 none
    (by decide) ⟨⟨"1", "PUMA", .premium, "T-shirts", 2000, 0⟩, 1, "M"⟩ (by decide)
